import Mathlib

set_option allowUnsafeReducibility true
attribute [local semireducible] Rat.add Rat.sub Rat.mul Rat.inv Rat.ofScientific

/-
Shallow embedding of the matching and reconciliation engine of the
plaid_income_tracking repository.

Sources embedded here:
  - src/src/lib/data.ts                                  (entity store operations)
  - src/src/app/api/data/match/route.ts                  (auto-match engine, POST)
  - src/src/app/api/data/tenant-transactions/route.ts    (manual assign POST / unassign DELETE)
  - src/unnamed/part_004                                 (tenants route POST/DELETE, accounts DELETE cascade)

Modelling conventions:
  - JS numbers carrying money amounts are modelled as rationals; all the
    amount logic of the source is ordered-field arithmetic (comparisons,
    subtraction, absolute value, a 0.01 epsilon), faithfully represented in the rationals.
  - JS strings are Lean strings; toUpperCase, trim and includes are modelled
    below.  An undefined optional string field is modelled as Option.none and
    the JS idiom (x || fallback) on a string as Option.getD / empty-string tests.
  - The JSON files behind lib/data.ts are modelled as one DataState record of
    four lists; each exported store function becomes a function on DataState.
-/

namespace PlaidIncome

/-- Tenant record, from the Tenant interface in src/src/lib/data.ts.
matchMode is the string union two-valued field; the empty string models an
absent (undefined) matchMode, which the code defaults to searchTerms. -/
structure Tenant where
  id : String
  name : String
  property : String
  expectedRent : ℚ
  tolerance : ℚ
  searchTerms : List String
  accountId : String
  matchMode : String
  exactAmounts : List ℚ
deriving DecidableEq, Repr

/-- Transaction record, from the Transaction interface in src/src/lib/data.ts.
Negative amount means money in (a deposit). category is omitted as it is
never read by the engine. -/
structure Transaction where
  transactionId : String
  accountId : String
  itemId : String
  amount : ℚ
  date : String
  name : String
  merchantName : Option String
  pending : Bool
deriving DecidableEq, Repr

/-- TenantTransaction link record (an Assignment), from src/src/lib/data.ts. -/
structure TenantTransaction where
  id : String
  tenantId : String
  transactionId : String
  manualOverride : Bool
deriving DecidableEq, Repr

/-- RejectedMatch record, from src/src/lib/data.ts. -/
structure RejectedMatch where
  tenantId : String
  transactionId : String
deriving DecidableEq, Repr

/-- The four JSON stores the engine reads and writes:
tenants.json, transactions.json, tenant-transactions.json, rejected-matches.json. -/
structure DataState where
  tenants : List Tenant
  transactions : List Transaction
  tenantTransactions : List TenantTransaction
  rejectedMatches : List RejectedMatch
deriving DecidableEq, Repr

/-- Helper for the JS String.prototype.includes test on character lists:
true iff needle occurs contiguously in hay. -/
def listIncludes (needle : List Char) : List Char → Bool
  | [] => needle.isEmpty
  | c :: rest => needle.isPrefixOf (c :: rest) || listIncludes needle rest

/-- JS hay.includes(needle). -/
def strIncludes (hay needle : String) : Bool :=
  listIncludes needle.data hay.data

/-- JS s.toUpperCase(), modelled characterwise (the matching data is in the
ASCII range, where the JS and Lean uppercase maps agree). -/
def strToUpper (s : String) : String :=
  ⟨s.data.map Char.toUpper⟩

/-- JS s.trim(): strip leading and trailing whitespace. -/
def strTrim (s : String) : String :=
  ⟨((s.data.dropWhile Char.isWhitespace).reverse.dropWhile Char.isWhitespace).reverse⟩

/-- The description string built by the matcher before term search:
`\x7b$\x7bname\x7d $\x7bmerchantName || two-quote-empty\x7d`.toUpperCase(), from
src/src/app/api/data/match/route.ts line 31 and src/src/lib/data.ts line 316. -/
def descriptionOf (transaction : Transaction) : String :=
  strToUpper (transaction.name ++ " " ++ transaction.merchantName.getD "")

/-- The rule evaluator: does one transaction satisfy one tenant rule.
This is the body shared verbatim by the auto-match engine
(src/src/app/api/data/match/route.ts lines 39-62) and the re-evaluator
(src/src/lib/data.ts lines 305-325). -/
def matchesTenant (tenant : Tenant) (transaction : Transaction) : Bool :=
  let depositAmount := |transaction.amount|
  let matchMode := if tenant.matchMode = "" then "searchTerms" else tenant.matchMode
  if matchMode = "exactAmounts" then
    tenant.exactAmounts.any (fun amount => decide (|depositAmount - amount| < 1 / 100))
  else
    let description := descriptionOf transaction
    let minAmount := tenant.expectedRent - tenant.tolerance
    let maxAmount := tenant.expectedRent + tenant.tolerance
    if minAmount ≤ depositAmount ∧ depositAmount ≤ maxAmount then
      tenant.searchTerms.any
        (fun term => strTrim term != "" && strIncludes description (strToUpper term))
    else
      false

/-- addTenantTransaction from src/src/lib/data.ts lines 254-271, acting on the
tenant-transactions list: if the transaction is already assigned the store is
left unchanged (the Do-not-duplicate early return), otherwise a link with the
derived id is appended. -/
def addTenantTransactionLinks (tenantId transactionId : String) (manualOverride : Bool)
    (existing : List TenantTransaction) : List TenantTransaction :=
  match existing.find? (fun tt => tt.transactionId == transactionId) with
  | some _ => existing
  | none =>
      existing ++ [{ id := tenantId ++ "-" ++ transactionId,
                     tenantId := tenantId,
                     transactionId := transactionId,
                     manualOverride := manualOverride }]

/-- State-level addTenantTransaction. -/
def addTenantTransaction (tenantId transactionId : String) (manualOverride : Bool)
    (s : DataState) : DataState :=
  { s with tenantTransactions :=
      addTenantTransactionLinks tenantId transactionId manualOverride s.tenantTransactions }

/-- removeTenantTransaction from src/src/lib/data.ts lines 273-276. -/
def removeTenantTransaction (transactionId : String) (s : DataState) : DataState :=
  { s with tenantTransactions :=
      s.tenantTransactions.filter (fun tt => tt.transactionId != transactionId) }

/-- removeTenantTransactionsForTenant from src/src/lib/data.ts lines 278-281. -/
def removeTenantTransactionsForTenant (tenantId : String) (s : DataState) : DataState :=
  { s with tenantTransactions :=
      s.tenantTransactions.filter (fun tt => tt.tenantId != tenantId) }

/-- addRejectedMatch from src/src/lib/data.ts lines 348-361 (idempotent append). -/
def addRejectedMatch (tenantId transactionId : String) (s : DataState) : DataState :=
  match s.rejectedMatches.find?
      (fun rm => rm.tenantId == tenantId && rm.transactionId == transactionId) with
  | some _ => s
  | none =>
      { s with rejectedMatches :=
          s.rejectedMatches ++ [{ tenantId := tenantId, transactionId := transactionId }] }

/-- Membership test behind isMatchRejected, on a rejected-matches list. -/
def isMatchRejectedIn (rejectedMatches : List RejectedMatch)
    (tenantId transactionId : String) : Bool :=
  rejectedMatches.any (fun rm => rm.tenantId == tenantId && rm.transactionId == transactionId)

/-- isMatchRejected from src/src/lib/data.ts lines 363-367. -/
def isMatchRejected (tenantId transactionId : String) (s : DataState) : Bool :=
  isMatchRejectedIn s.rejectedMatches tenantId transactionId

/-- removeRejectedMatch from src/src/lib/data.ts lines 369-374. -/
def removeRejectedMatch (tenantId transactionId : String) (s : DataState) : DataState :=
  let kept := s.rejectedMatches.filter
    (fun rm => !(rm.tenantId == tenantId && rm.transactionId == transactionId))
  { s with rejectedMatches := kept }

/-- removeRejectedMatchesForTenant from src/src/lib/data.ts lines 376-379. -/
def removeRejectedMatchesForTenant (tenantId : String) (s : DataState) : DataState :=
  { s with rejectedMatches := s.rejectedMatches.filter (fun rm => rm.tenantId != tenantId) }

/-- deleteTenant from src/src/lib/data.ts lines 152-155. -/
def deleteTenant (id : String) (s : DataState) : DataState :=
  { s with tenants := s.tenants.filter (fun t => t.id != id) }

/-- saveTenant from src/src/lib/data.ts lines 141-150: replace in place when the
id exists, append otherwise. -/
def saveTenant (tenant : Tenant) (s : DataState) : DataState :=
  match s.tenants.findIdx? (fun t => t.id == tenant.id) with
  | some i => { s with tenants := s.tenants.set i tenant }
  | none => { s with tenants := s.tenants ++ [tenant] }

/-- saveTransactions from src/src/lib/data.ts lines 196-205 (append the
transactions whose id is not already present). -/
def saveTransactions (transactions : List Transaction) (s : DataState) : DataState :=
  let existingIds := s.transactions.map (fun t => t.transactionId)
  { s with transactions :=
      s.transactions ++ transactions.filter (fun t => !existingIds.contains t.transactionId) }

/-- removeTransactions from src/src/lib/data.ts lines 215-219. -/
def removeTransactions (transactionIds : List String) (s : DataState) : DataState :=
  { s with transactions :=
      s.transactions.filter (fun t => !transactionIds.contains t.transactionId) }

/-- The list of transaction ids an edited tenant no longer matches
(transactionsToRemove built in src/src/lib/data.ts lines 290-330): one entry
per auto-matched link of the tenant whose transaction is missing or fails the
new rule. -/
def transactionsToRemove (tenant : Tenant) (s : DataState) : List String :=
  let autoMatched := s.tenantTransactions.filter
    (fun tt => tt.tenantId == tenant.id && !tt.manualOverride)
  autoMatched.filterMap (fun tt =>
    match s.transactions.find? (fun t => t.transactionId == tt.transactionId) with
    | none => some tt.transactionId
    | some transaction =>
        if matchesTenant tenant transaction then none else some tt.transactionId)

/-- reEvaluateTenantMatches from src/src/lib/data.ts lines 285-341: drop every
link whose transactionId is slated for removal, and return the removal count. -/
def reEvaluateTenantMatches (tenant : Tenant) (s : DataState) : DataState × Nat :=
  let toRemove := transactionsToRemove tenant s
  if toRemove.length > 0 then
    let remaining := s.tenantTransactions.filter (fun tt => !toRemove.contains tt.transactionId)
    ({ s with tenantTransactions := remaining }, toRemove.length)
  else
    (s, toRemove.length)

/-- Manual assignment: the POST handler of
src/src/app/api/data/tenant-transactions/route.ts lines 18-33.  It clears the
rejection for the exact pair, then calls addTenantTransaction with
manualOverride set to true. -/
def tenantTransactionsPOST (tenantId transactionId : String) (s : DataState) : DataState :=
  addTenantTransaction tenantId transactionId true (removeRejectedMatch tenantId transactionId s)

/-- Unassignment: the DELETE handler of
src/src/app/api/data/tenant-transactions/route.ts lines 36-56.  The first link
carrying the transactionId (getTenantTransactionByTransactionId) yields the
tenant recorded as a RejectedMatch; then every link of the transactionId is
removed. -/
def tenantTransactionsDELETE (transactionId : String) (s : DataState) : DataState :=
  let withRejection :=
    match s.tenantTransactions.find? (fun tt => tt.transactionId == transactionId) with
    | some assignment => addRejectedMatch assignment.tenantId transactionId s
    | none => s
  removeTenantTransaction transactionId withRejection

/-- First tenant, in stored order, that is neither rejected for this deposit
nor fails the rule: the inner tenant loop of
src/src/app/api/data/match/route.ts lines 33-71 assigns to exactly this tenant.
The rejected-matches store is not written during a match run, so the per-tenant
isMatchRejected store reads all see the same list. -/
def firstMatchingTenant (tenants : List Tenant) (rejectedMatches : List RejectedMatch)
    (deposit : Transaction) : Option Tenant :=
  tenants.find? (fun tenant =>
    !isMatchRejectedIn rejectedMatches tenant.id deposit.transactionId
      && matchesTenant tenant deposit)

/-- Loop state of the auto-match pass: the evolving tenant-transactions store,
the in-memory assignedIds set (modelled as the list of inserted ids), and the
running matchedCount. -/
structure MatchAcc where
  links : List TenantTransaction
  assignedIds : List String
  matchedCount : Nat
deriving DecidableEq, Repr

/-- One iteration of the outer deposit loop of
src/src/app/api/data/match/route.ts lines 25-72: skip an already assigned
deposit, otherwise assign it to the first matching tenant (if any), record the
id in assignedIds and bump the count. -/
def autoMatchStep (tenants : List Tenant) (rejectedMatches : List RejectedMatch)
    (acc : MatchAcc) (deposit : Transaction) : MatchAcc :=
  if acc.assignedIds.contains deposit.transactionId then acc
  else
    match firstMatchingTenant tenants rejectedMatches deposit with
    | some tenant =>
        { links := addTenantTransactionLinks tenant.id deposit.transactionId false acc.links
          assignedIds := acc.assignedIds ++ [deposit.transactionId]
          matchedCount := acc.matchedCount + 1 }
    | none => acc

/-- The auto-match engine: the POST handler of
src/src/app/api/data/match/route.ts lines 11-85.  Deposits are the
negative-amount transactions; assignedIds starts as the ids of all existing
links; the handler returns the updated store and the matched count. -/
def matchPOST (s : DataState) : DataState × Nat :=
  let deposits := s.transactions.filter (fun t => decide (t.amount < 0))
  let final := deposits.foldl (autoMatchStep s.tenants s.rejectedMatches)
    { links := s.tenantTransactions
      assignedIds := s.tenantTransactions.map (fun tt => tt.transactionId)
      matchedCount := 0 }
  ({ s with tenantTransactions := final.links }, final.matchedCount)

/-- The tenants POST handler from src/unnamed/part_004 lines 516-545: detect an
edit before saving, save, and re-evaluate only on edit, returning removedCount.
A missing id is generated from the clock in the source; freshId stands for that
generated value. -/
def tenantsPOST (tenant : Tenant) (freshId : String) (s : DataState) : DataState × Nat :=
  let isEdit := tenant.id != "" && s.tenants.any (fun t => t.id == tenant.id)
  let tenant1 := if tenant.id = "" then { tenant with id := freshId } else tenant
  let s1 := saveTenant tenant1 s
  if isEdit then reEvaluateTenantMatches tenant1 s1 else (s1, 0)

/-- The tenants DELETE handler from src/unnamed/part_004 lines 547-569:
cascade-remove the links and rejections of the tenant, then the tenant. -/
def tenantsDELETE (id : String) (s : DataState) : DataState :=
  deleteTenant id (removeRejectedMatchesForTenant id (removeTenantTransactionsForTenant id s))

/-- The accounts DELETE handler from src/unnamed/part_004 lines 436-499:
delete the transactions of the account (matched by itemId) and cascade-remove
links and rejections that reference a deleted transaction.  The accounts and
csv-uploads stores it also touches are outside the engine state. -/
def accountsDELETE (id : String) (s : DataState) : DataState :=
  let transactionIdsToDelete :=
    (s.transactions.filter (fun t => t.itemId == id)).map (fun t => t.transactionId)
  { s with
    transactions := s.transactions.filter (fun t => t.itemId != id)
    tenantTransactions :=
      s.tenantTransactions.filter (fun tt => !transactionIdsToDelete.contains tt.transactionId)
    rejectedMatches :=
      s.rejectedMatches.filter (fun rm => !transactionIdsToDelete.contains rm.transactionId) }

/-- The csv-uploads DELETE handler from src/unnamed/part_002 lines 40-89:
given the transaction ids recorded on the deleted upload, remove those
transactions and cascade-remove links and rejections referencing them.  The
csv-uploads store itself is outside the engine state. -/
def csvUploadsDELETE (transactionIds : List String) (s : DataState) : DataState :=
  { s with
    transactions := s.transactions.filter (fun t => !transactionIds.contains t.transactionId)
    tenantTransactions :=
      s.tenantTransactions.filter (fun tt => !transactionIds.contains tt.transactionId)
    rejectedMatches :=
      s.rejectedMatches.filter (fun rm => !transactionIds.contains rm.transactionId) }

/-- One transaction id is referenced by at most one link: the
single-tenant-per-transaction store invariant, phrased as pairwise
distinctness of the transactionId fields. -/
def ExclusiveLinks (links : List TenantTransaction) : Prop :=
  links.Pairwise (fun a b => a.transactionId ≠ b.transactionId)

/-- The in-memory assignedIds set of the match loop agrees with the evolving
store: an id is in the set exactly when some link carries it. -/
def SyncAcc (acc : MatchAcc) : Prop :=
  ∀ txId : String,
    acc.assignedIds.contains txId = acc.links.any (fun tt => tt.transactionId == txId)

/-- The state of a fresh installation: every JSON store reads as the empty list. -/
def initialState : DataState := ⟨[], [], [], []⟩

/-- States reachable from a fresh installation through the engine entry
points: auto-match runs, manual assigns, unassigns, tenant saves with
re-evaluation, re-evaluation itself, ingestion, and the three cascade
deletions. -/
inductive Reachable : DataState → Prop
  | init : Reachable initialState
  | autoMatch {s} : Reachable s → Reachable (matchPOST s).1
  | assign {s} (tenantId transactionId : String) :
      Reachable s → Reachable (tenantTransactionsPOST tenantId transactionId s)
  | unassign {s} (transactionId : String) :
      Reachable s → Reachable (tenantTransactionsDELETE transactionId s)
  | saveTen {s} (tenant : Tenant) (freshId : String) :
      Reachable s → Reachable (tenantsPOST tenant freshId s).1
  | reEval {s} (tenant : Tenant) :
      Reachable s → Reachable (reEvaluateTenantMatches tenant s).1
  | delTenant {s} (id : String) : Reachable s → Reachable (tenantsDELETE id s)
  | delAccount {s} (id : String) : Reachable s → Reachable (accountsDELETE id s)
  | delCsvUpload {s} (transactionIds : List String) :
      Reachable s → Reachable (csvUploadsDELETE transactionIds s)
  | ingest {s} (transactions : List Transaction) :
      Reachable s → Reachable (saveTransactions transactions s)

/-- User-visible commands of the matching core, for temporal properties over
command sequences. -/
inductive UserOp where
  | autoMatch : UserOp
  | assign (tenantId transactionId : String) : UserOp
  | unassign (transactionId : String) : UserOp
  | editTenant (tenant : Tenant) (freshId : String) : UserOp
deriving DecidableEq, Repr

/-- Interpretation of one command on the store. -/
def applyOp (op : UserOp) (s : DataState) : DataState :=
  match op with
  | .autoMatch => (matchPOST s).1
  | .assign tenantId transactionId => tenantTransactionsPOST tenantId transactionId s
  | .unassign transactionId => tenantTransactionsDELETE transactionId s
  | .editTenant tenant freshId => (tenantsPOST tenant freshId s).1

/-- Interpretation of a command sequence, first command first. -/
def applyOps (ops : List UserOp) (s : DataState) : DataState :=
  ops.foldl (fun s op => applyOp op s) s

/-- Scenario constants used by the concrete witnesses below. -/
def tenantA : Tenant :=
  { id := "A", name := "Tenant A", property := "Unit 1", expectedRent := 1000,
    tolerance := 50, searchTerms := ["SMITH"], accountId := "acct-1",
    matchMode := "searchTerms", exactAmounts := [] }

/-- Second tenant with the same rule as tenantA, listed after it. -/
def tenantB : Tenant :=
  { tenantA with id := "B", name := "Tenant B" }

/-- A deposit of 1000 with description SMITH. -/
def smithDeposit : Transaction :=
  { transactionId := "t1", accountId := "acct-1", itemId := "item-1", amount := -1000,
    date := "2024-01-01", name := "SMITH", merchantName := none, pending := false }

/-- Store holding tenants A and B (in that order) and the SMITH deposit,
nothing assigned, nothing rejected. -/
def firstMatchState : DataState :=
  ⟨[tenantA, tenantB], [smithDeposit], [], []⟩

/-- Store in which transaction t1 is already assigned to tenant B. -/
def reassignState : DataState :=
  ⟨[tenantA, tenantB], [smithDeposit],
   [{ id := "B-t1", tenantId := "B", transactionId := "t1", manualOverride := false }], []⟩

/-- Tenant of the end-to-end scenario: rent 1500, tolerance 50, term SMITH. -/
def ten1 : Tenant :=
  { id := "ten1", name := "John Smith", property := "Unit 2", expectedRent := 1500,
    tolerance := 50, searchTerms := ["SMITH"], accountId := "acct-1",
    matchMode := "searchTerms", exactAmounts := [] }

/-- Deposit satisfying the rule of ten1. -/
def zelleTx : Transaction :=
  { transactionId := "t1", accountId := "acct-1", itemId := "item-1", amount := -1500,
    date := "2024-01-02", name := "ZELLE FROM JOHN SMITH", merchantName := none,
    pending := false }

/-- Store where zelleTx is auto-assigned to ten1. -/
def suppressionState : DataState :=
  ⟨[ten1], [zelleTx],
   [{ id := "ten1-t1", tenantId := "ten1", transactionId := "t1", manualOverride := false }],
   []⟩

/-- An edit of ten1 whose new rule no longer matches zelleTx. -/
def ten1Edited : Tenant :=
  { ten1 with searchTerms := ["JONES"] }

/-- Same store as suppressionState but with a manual link instead. -/
def manualLinkState : DataState :=
  ⟨[ten1], [zelleTx],
   [{ id := "ten1-t1", tenantId := "ten1", transactionId := "t1", manualOverride := true }],
   []⟩

/-- Tenant whose only search term is a single space (whitespace-only). -/
def wsTenant : Tenant :=
  { id := "W", name := "W", property := "P", expectedRent := 1000, tolerance := 0,
    searchTerms := [" "], accountId := "acct-1", matchMode := "searchTerms",
    exactAmounts := [] }

/-- Deposit in range for wsTenant. -/
def wsTx : Transaction :=
  { transactionId := "w1", accountId := "acct-1", itemId := "item-1", amount := -1000,
    date := "2024-01-03", name := "PAYMENT", merchantName := none, pending := false }

/-- Tenant of the amount-boundary scenario: rent 1500, tolerance 50, term RENT. -/
def boundaryTenant : Tenant :=
  { id := "R", name := "R", property := "P", expectedRent := 1500, tolerance := 50,
    searchTerms := ["RENT"], accountId := "acct-1", matchMode := "searchTerms",
    exactAmounts := [] }

/-- Deposit of exactly 1450 with description RENT. -/
def tx1450 : Transaction :=
  { transactionId := "b1", accountId := "acct-1", itemId := "item-1", amount := -1450,
    date := "2024-01-04", name := "RENT", merchantName := none, pending := false }

/-- Deposit of exactly 1550. -/
def tx1550 : Transaction :=
  { tx1450 with transactionId := "b2", amount := -1550 }

/-- Deposit of 1449.99, just below the lower bound. -/
def tx144999 : Transaction :=
  { tx1450 with transactionId := "b3", amount := -(1449.99 : ℚ) }

/-- Deposit of 1550.01, just above the upper bound. -/
def tx155001 : Transaction :=
  { tx1450 with transactionId := "b4", amount := -(1550.01 : ℚ) }

/-- Transaction that fails the rule of tenantA (wrong description). -/
def otherTx : Transaction :=
  { transactionId := "x1", accountId := "acct-1", itemId := "item-1", amount := -1000,
    date := "2024-01-05", name := "OTHER", merchantName := none, pending := false }

/-- Store violating no invariant assumptions: an automatic link of tenant A on
x1 that no longer matches, and a manual link of another tenant Z on the same
transaction id. -/
def sharedTxIdState : DataState :=
  ⟨[tenantA], [otherTx],
   [{ id := "A-x1", tenantId := "A", transactionId := "x1", manualOverride := false },
    { id := "Z-x1", tenantId := "Z", transactionId := "x1", manualOverride := true }],
   []⟩

/-- Boolean equality on strings is symmetric. -/
theorem strBeqComm (a b : String) : (a == b) = (b == a) := by
  by_cases h : a = b
  · subst h; rfl
  · rw [beq_eq_false_iff_ne.mpr h, beq_eq_false_iff_ne.mpr (Ne.symm h)]

/-- A link already carrying the transaction id makes addTenantTransaction a no-op. -/
theorem addLinks_assigned (tenantId transactionId : String) (m : Bool)
    (ls : List TenantTransaction)
    (h : ls.any (fun tt => tt.transactionId == transactionId) = true) :
    addTenantTransactionLinks tenantId transactionId m ls = ls := by
  obtain ⟨tt, htt, hp⟩ := List.any_eq_true.mp h
  unfold addTenantTransactionLinks
  split
  · rfl
  · next hfind =>
      exact absurd hp (List.find?_eq_none.mp hfind tt htt)

/-- With no link carrying the transaction id, addTenantTransaction appends the
new link. -/
theorem addLinks_unassigned (tenantId transactionId : String) (m : Bool)
    (ls : List TenantTransaction)
    (h : ls.any (fun tt => tt.transactionId == transactionId) = false) :
    addTenantTransactionLinks tenantId transactionId m ls =
      ls ++ [{ id := tenantId ++ "-" ++ transactionId, tenantId := tenantId,
               transactionId := transactionId, manualOverride := m }] := by
  unfold addTenantTransactionLinks
  split
  · next tt hfind =>
      have hmem := List.mem_of_find?_eq_some hfind
      have hp := List.find?_some hfind
      have := List.any_eq_false.mp h tt hmem
      exact absurd hp this
  · rfl

/-- addTenantTransaction either leaves the store alone or appends one link. -/
theorem addLinks_dichotomy (tenantId transactionId : String) (m : Bool)
    (ls : List TenantTransaction) :
    addTenantTransactionLinks tenantId transactionId m ls = ls ∨
      (ls.any (fun tt => tt.transactionId == transactionId) = false ∧
        addTenantTransactionLinks tenantId transactionId m ls =
          ls ++ [{ id := tenantId ++ "-" ++ transactionId, tenantId := tenantId,
                   transactionId := transactionId, manualOverride := m }]) := by
  rcases Bool.eq_false_or_eq_true (ls.any (fun tt => tt.transactionId == transactionId)) with
    h | h
  · exact Or.inl (addLinks_assigned _ _ _ _ h)
  · exact Or.inr ⟨h, addLinks_unassigned _ _ _ _ h⟩

/-- Filtering never breaks the exclusivity invariant. -/
theorem exclusiveLinks_filter (p : TenantTransaction → Bool)
    {ls : List TenantTransaction} (h : ExclusiveLinks ls) :
    ExclusiveLinks (ls.filter p) :=
  h.sublist (List.filter_sublist ls)

/-- addTenantTransaction preserves the exclusivity invariant. -/
theorem exclusiveLinks_addLinks (tenantId transactionId : String) (m : Bool)
    {ls : List TenantTransaction} (h : ExclusiveLinks ls) :
    ExclusiveLinks (addTenantTransactionLinks tenantId transactionId m ls) := by
  rcases addLinks_dichotomy tenantId transactionId m ls with heq | ⟨hany, heq⟩
  · rw [heq]; exact h
  · rw [heq]
    rw [ExclusiveLinks, List.pairwise_append]
    refine ⟨h, List.pairwise_singleton _ _, ?_⟩
    intro a ha b hb
    have hb1 : b = { id := tenantId ++ "-" ++ transactionId, tenantId := tenantId,
                     transactionId := transactionId, manualOverride := m } := by
      simpa using hb
    subst hb1
    have := List.any_eq_false.mp hany a ha
    simpa using this

/-- Two links of an exclusive store sharing a transaction id are the same link. -/
theorem exclusiveLinks_unique {ls : List TenantTransaction} (h : ExclusiveLinks ls)
    {a b : TenantTransaction} (ha : a ∈ ls) (hb : b ∈ ls)
    (hid : a.transactionId = b.transactionId) : a = b := by
  by_contra hne
  exact h.forall (fun x y hxy => Ne.symm hxy) ha hb hne hid

/-- In an exclusive store, at most one link survives filtering on one
transaction id. -/
theorem exclusiveLinks_count {ls : List TenantTransaction} (h : ExclusiveLinks ls)
    (txId : String) :
    (ls.filter (fun tt => tt.transactionId == txId)).length ≤ 1 := by
  induction ls with
  | nil => simp
  | cons hd tl ih =>
      have hpw := List.pairwise_cons.mp h
      by_cases hhd : hd.transactionId = txId
      · have : tl.filter (fun tt => tt.transactionId == txId) = [] := by
          refine List.filter_eq_nil_iff.mpr ?_
          intro x hx
          have := hpw.1 x hx
          rw [hhd] at this
          simpa using Ne.symm this
        simp [List.filter_cons, hhd, this]
      · have := ih hpw.2
        simpa [List.filter_cons, beq_eq_false_iff_ne.mpr hhd] using this

/-- Unfolding of matchPOST: the resulting link store. -/
theorem matchPOST_links (s : DataState) :
    (matchPOST s).1.tenantTransactions =
      (List.foldl (autoMatchStep s.tenants s.rejectedMatches)
        { links := s.tenantTransactions
          assignedIds := s.tenantTransactions.map (fun tt => tt.transactionId)
          matchedCount := 0 }
        (s.transactions.filter (fun t => decide (t.amount < 0)))).links := rfl

/-- Unfolding of matchPOST: the returned matched count. -/
theorem matchPOST_count (s : DataState) :
    (matchPOST s).2 =
      (List.foldl (autoMatchStep s.tenants s.rejectedMatches)
        { links := s.tenantTransactions
          assignedIds := s.tenantTransactions.map (fun tt => tt.transactionId)
          matchedCount := 0 }
        (s.transactions.filter (fun t => decide (t.amount < 0)))).matchedCount := rfl

/-- The auto-match run reads and writes only the link store. -/
theorem matchPOST_frame (s : DataState) :
    (matchPOST s).1.tenants = s.tenants ∧
    (matchPOST s).1.transactions = s.transactions ∧
    (matchPOST s).1.rejectedMatches = s.rejectedMatches :=
  ⟨rfl, rfl, rfl⟩

/-- A Bool that is false is not true. -/
theorem boolNotTrue {b : Bool} (h : b = false) : ¬(b = true) := by
  intro hc
  rw [h] at hc
  exact Bool.false_ne_true hc

/-- Step unfolding: an already assigned deposit is skipped. -/
theorem autoMatchStep_skip (ts : List Tenant) (rs : List RejectedMatch) (acc : MatchAcc)
    (d : Transaction) (hg : acc.assignedIds.contains d.transactionId = true) :
    autoMatchStep ts rs acc d = acc := by
  unfold autoMatchStep
  rw [if_pos hg]

/-- Step unfolding: no tenant matches, the deposit is skipped. -/
theorem autoMatchStep_none (ts : List Tenant) (rs : List RejectedMatch) (acc : MatchAcc)
    (d : Transaction) (hg : acc.assignedIds.contains d.transactionId = false)
    (hf : firstMatchingTenant ts rs d = none) :
    autoMatchStep ts rs acc d = acc := by
  unfold autoMatchStep
  rw [if_neg (boolNotTrue hg), hf]

/-- Step unfolding: the first matching tenant receives the deposit. -/
theorem autoMatchStep_some (ts : List Tenant) (rs : List RejectedMatch) (acc : MatchAcc)
    (d : Transaction) (t : Tenant)
    (hg : acc.assignedIds.contains d.transactionId = false)
    (hf : firstMatchingTenant ts rs d = some t) :
    autoMatchStep ts rs acc d =
      { links := addTenantTransactionLinks t.id d.transactionId false acc.links
        assignedIds := acc.assignedIds ++ [d.transactionId]
        matchedCount := acc.matchedCount + 1 } := by
  unfold autoMatchStep
  rw [if_neg (boolNotTrue hg), hf]

/-- Appending one id to a list shifts the membership test by one disjunct. -/
theorem contains_append_one (l : List String) (a x : String) :
    (l ++ [a]).contains x = (l.contains x || (x == a)) := by
  rw [Bool.eq_iff_iff, Bool.or_eq_true]
  constructor
  · intro h
    rcases List.mem_append.mp (List.elem_iff.mp h) with h1 | h2
    · exact Or.inl (List.elem_iff.mpr h1)
    · have : x = a := by simpa using h2
      exact Or.inr (by simp [this])
  · intro h
    rcases h with h1 | h2
    · exact List.elem_iff.mpr (List.mem_append.mpr (Or.inl (List.elem_iff.mp h1)))
    · have : x = a := by simpa using h2
      exact List.elem_iff.mpr (List.mem_append.mpr (Or.inr (by simp [this])))

/-- Every link the match loop adds is an automatic link of the first matching
tenant of some processed deposit; the store only ever grows at the end. -/
theorem autoMatch_foldl_links_append (ts : List Tenant) (rs : List RejectedMatch)
    (ds : List Transaction) :
    ∀ acc : MatchAcc,
      ∃ extra, (List.foldl (autoMatchStep ts rs) acc ds).links = acc.links ++ extra ∧
        ∀ l ∈ extra, l.manualOverride = false ∧
          ∃ d ∈ ds, ∃ t, firstMatchingTenant ts rs d = some t ∧
            l.tenantId = t.id ∧ l.transactionId = d.transactionId := by
  induction ds with
  | nil => exact fun acc => ⟨[], by simp, by simp⟩
  | cons d rest ih =>
      intro acc
      rw [List.foldl_cons]
      obtain ⟨extra, heq, hprop⟩ := ih (autoMatchStep ts rs acc d)
      have hweaken : ∀ l ∈ extra, l.manualOverride = false ∧
          ∃ d2 ∈ d :: rest, ∃ t, firstMatchingTenant ts rs d2 = some t ∧
            l.tenantId = t.id ∧ l.transactionId = d2.transactionId := by
        intro l hl
        obtain ⟨hm, d2, hd2, t, hft, hl1, hl2⟩ := hprop l hl
        exact ⟨hm, d2, List.mem_cons_of_mem _ hd2, t, hft, hl1, hl2⟩
      rcases Bool.eq_false_or_eq_true (acc.assignedIds.contains d.transactionId) with hg | hg
      · refine ⟨extra, ?_, hweaken⟩
        rw [heq, autoMatchStep_skip ts rs acc d hg]
      · cases hf : firstMatchingTenant ts rs d with
        | none =>
            refine ⟨extra, ?_, hweaken⟩
            rw [heq, autoMatchStep_none ts rs acc d hg hf]
        | some t =>
            rcases addLinks_dichotomy t.id d.transactionId false acc.links with
              ha | ⟨_, ha⟩
            · refine ⟨extra, ?_, hweaken⟩
              rw [heq, autoMatchStep_some ts rs acc d t hg hf]
              show addTenantTransactionLinks t.id d.transactionId false acc.links ++ extra
                = acc.links ++ extra
              rw [ha]
            · refine ⟨{ id := t.id ++ "-" ++ d.transactionId, tenantId := t.id,
                        transactionId := d.transactionId, manualOverride := false }
                        :: extra, ?_, ?_⟩
              · rw [heq, autoMatchStep_some ts rs acc d t hg hf]
                show addTenantTransactionLinks t.id d.transactionId false acc.links ++ extra
                  = _
                rw [ha, List.append_assoc]
                rfl
              · intro l hl
                rcases List.mem_cons.mp hl with hl0 | hlr
                · subst hl0
                  exact ⟨rfl, d, List.mem_cons_self _ _, t, hf, rfl, rfl⟩
                · exact hweaken l hlr

/-- One match step keeps assignedIds and the link store in agreement. -/
theorem syncAcc_step (ts : List Tenant) (rs : List RejectedMatch) (acc : MatchAcc)
    (d : Transaction) (h : SyncAcc acc) : SyncAcc (autoMatchStep ts rs acc d) := by
  rcases Bool.eq_false_or_eq_true (acc.assignedIds.contains d.transactionId) with hg | hg
  · rw [autoMatchStep_skip ts rs acc d hg]; exact h
  · cases hf : firstMatchingTenant ts rs d with
    | none => rw [autoMatchStep_none ts rs acc d hg hf]; exact h
    | some t =>
        have hany : acc.links.any (fun tt => tt.transactionId == d.transactionId) = false := by
          rw [← h d.transactionId]; exact hg
        have hadd := addLinks_unassigned t.id d.transactionId false acc.links hany
        rw [autoMatchStep_some ts rs acc d t hg hf]
        intro txId
        show (acc.assignedIds ++ [d.transactionId]).contains txId = _
        rw [contains_append_one, h txId]
        show _ = (addTenantTransactionLinks t.id d.transactionId false acc.links).any _
        rw [hadd, List.any_append]
        simp [List.any_cons, strBeqComm txId d.transactionId]

/-- The agreement persists through the whole loop. -/
theorem syncAcc_foldl (ts : List Tenant) (rs : List RejectedMatch)
    (ds : List Transaction) :
    ∀ acc : MatchAcc, SyncAcc acc → SyncAcc (List.foldl (autoMatchStep ts rs) acc ds) := by
  induction ds with
  | nil => exact fun acc h => h
  | cons d rest ih =>
      intro acc h
      rw [List.foldl_cons]
      exact ih _ (syncAcc_step ts rs acc d h)

/-- The loop is started with assignedIds agreeing with the store. -/
theorem syncAcc_init (links : List TenantTransaction) :
    SyncAcc { links := links, assignedIds := links.map (fun tt => tt.transactionId),
              matchedCount := 0 } := by
  intro txId
  rw [Bool.eq_iff_iff]
  constructor
  · intro hc
    have : txId ∈ links.map (fun tt => tt.transactionId) := List.elem_iff.mp hc
    obtain ⟨tt, htt, heq⟩ := List.mem_map.mp this
    exact List.any_eq_true.mpr ⟨tt, htt, by simp [heq]⟩
  · intro ha
    obtain ⟨tt, htt, heq⟩ := List.any_eq_true.mp ha
    refine List.elem_iff.mpr (List.mem_map.mpr ⟨tt, htt, ?_⟩)
    simpa using heq

/-- A deposit that ends the loop unassigned had no matching tenant. -/
theorem autoMatch_foldl_unassigned_none (ts : List Tenant) (rs : List RejectedMatch)
    (ds : List Transaction) :
    ∀ acc : MatchAcc, SyncAcc acc → ∀ d ∈ ds,
      ((List.foldl (autoMatchStep ts rs) acc ds).links.any
        (fun tt => tt.transactionId == d.transactionId)) = false →
      firstMatchingTenant ts rs d = none := by
  induction ds with
  | nil => intro acc _ d hd; exact absurd hd (List.not_mem_nil d)
  | cons d0 rest ih =>
      intro acc hsync d hd hfin
      rw [List.foldl_cons] at hfin
      have hsync1 := syncAcc_step ts rs acc d0 hsync
      rcases List.mem_cons.mp hd with rfl | hdr
      · obtain ⟨extra, heq, _⟩ := autoMatch_foldl_links_append ts rs rest
          (autoMatchStep ts rs acc d)
        rw [heq, List.any_append] at hfin
        have hstep1 : (autoMatchStep ts rs acc d).links.any
            (fun tt => tt.transactionId == d.transactionId) = false :=
          (Bool.or_eq_false_iff.mp hfin).1
        rcases Bool.eq_false_or_eq_true (acc.assignedIds.contains d.transactionId) with
          hg | hg
        · exfalso
          have hlinks : acc.links.any (fun tt => tt.transactionId == d.transactionId)
              = true := by
            rw [← hsync d.transactionId]; exact hg
          rw [autoMatchStep_skip ts rs acc d hg, hlinks] at hstep1
          exact Bool.false_ne_true hstep1.symm
        · cases hf : firstMatchingTenant ts rs d with
          | none => rfl
          | some t =>
              exfalso
              have hany : acc.links.any (fun tt => tt.transactionId == d.transactionId)
                  = false := by
                rw [← hsync d.transactionId]; exact hg
              have hadd := addLinks_unassigned t.id d.transactionId false acc.links hany
              rw [autoMatchStep_some ts rs acc d t hg hf] at hstep1
              change (addTenantTransactionLinks t.id d.transactionId false acc.links).any
                _ = false at hstep1
              rw [hadd, List.any_append] at hstep1
              simp at hstep1
      · exact ih (autoMatchStep ts rs acc d0) hsync1 d hdr hfin

/-- When no unassigned deposit has a matching tenant the loop is inert. -/
theorem autoMatch_foldl_fix (ts : List Tenant) (rs : List RejectedMatch)
    (ds : List Transaction) :
    ∀ acc : MatchAcc, SyncAcc acc →
      (∀ d ∈ ds, acc.links.any (fun tt => tt.transactionId == d.transactionId) = false →
        firstMatchingTenant ts rs d = none) →
      List.foldl (autoMatchStep ts rs) acc ds = acc := by
  induction ds with
  | nil => intro acc _ _; rfl
  | cons d0 rest ih =>
      intro acc hsync hnone
      rw [List.foldl_cons]
      have hstep : autoMatchStep ts rs acc d0 = acc := by
        rcases Bool.eq_false_or_eq_true (acc.assignedIds.contains d0.transactionId) with
          hg | hg
        · exact autoMatchStep_skip ts rs acc d0 hg
        · have hany : acc.links.any (fun tt => tt.transactionId == d0.transactionId)
              = false := by
            rw [← hsync d0.transactionId]; exact hg
          exact autoMatchStep_none ts rs acc d0 hg
            (hnone d0 (List.mem_cons_self _ _) hany)
      rw [hstep]
      exact ih acc hsync (fun d hd => hnone d (List.mem_cons_of_mem _ hd))

/-- The loop preserves the exclusivity invariant of the store. -/
theorem autoMatch_foldl_exclusive (ts : List Tenant) (rs : List RejectedMatch)
    (ds : List Transaction) :
    ∀ acc : MatchAcc, ExclusiveLinks acc.links →
      ExclusiveLinks (List.foldl (autoMatchStep ts rs) acc ds).links := by
  induction ds with
  | nil => exact fun acc h => h
  | cons d rest ih =>
      intro acc h
      rw [List.foldl_cons]
      refine ih _ ?_
      rcases Bool.eq_false_or_eq_true (acc.assignedIds.contains d.transactionId) with
        hg | hg
      · rw [autoMatchStep_skip ts rs acc d hg]; exact h
      · cases hf : firstMatchingTenant ts rs d with
        | none => rw [autoMatchStep_none ts rs acc d hg hf]; exact h
        | some t =>
            rw [autoMatchStep_some ts rs acc d t hg hf]
            exact exclusiveLinks_addLinks _ _ _ h

/-- addRejectedMatch leaves the three other stores alone. -/
theorem addRejectedMatch_frame (a b : String) (s : DataState) :
    (addRejectedMatch a b s).tenants = s.tenants ∧
    (addRejectedMatch a b s).transactions = s.transactions ∧
    (addRejectedMatch a b s).tenantTransactions = s.tenantTransactions := by
  unfold addRejectedMatch
  split <;> exact ⟨rfl, rfl, rfl⟩

/-- saveTenant changes only the tenants store. -/
theorem saveTenant_frame (t : Tenant) (s : DataState) :
    (saveTenant t s).tenantTransactions = s.tenantTransactions ∧
    (saveTenant t s).transactions = s.transactions ∧
    (saveTenant t s).rejectedMatches = s.rejectedMatches := by
  unfold saveTenant
  split <;> exact ⟨rfl, rfl, rfl⟩

/-- The unassign handler filters out every link of the transaction id. -/
theorem unassign_links (transactionId : String) (s : DataState) :
    (tenantTransactionsDELETE transactionId s).tenantTransactions =
      s.tenantTransactions.filter (fun tt => tt.transactionId != transactionId) := by
  unfold tenantTransactionsDELETE
  split
  · next assignment _ =>
      show (addRejectedMatch assignment.tenantId transactionId s).tenantTransactions.filter _
        = _
      rw [(addRejectedMatch_frame assignment.tenantId transactionId s).2.2]
  · rfl

/-- In both branches, re-evaluation filters the store on the removal list. -/
theorem reEval_links (tenant : Tenant) (s : DataState) :
    (reEvaluateTenantMatches tenant s).1.tenantTransactions =
      s.tenantTransactions.filter
        (fun tt => !(transactionsToRemove tenant s).contains tt.transactionId) := by
  simp only [reEvaluateTenantMatches]
  split
  · rfl
  · next hc =>
      have h0 : transactionsToRemove tenant s = [] := by
        cases h : transactionsToRemove tenant s with
        | nil => rfl
        | cons a l => rw [h] at hc; simp at hc
      rw [h0]
      simp

/-- The removedCount returned by re-evaluation is the removal list length. -/
theorem reEval_count (tenant : Tenant) (s : DataState) :
    (reEvaluateTenantMatches tenant s).2 = (transactionsToRemove tenant s).length := by
  simp only [reEvaluateTenantMatches]
  split <;> rfl

/-- Re-evaluation reads and writes only the link store. -/
theorem reEval_frame (tenant : Tenant) (s : DataState) :
    (reEvaluateTenantMatches tenant s).1.tenants = s.tenants ∧
    (reEvaluateTenantMatches tenant s).1.transactions = s.transactions ∧
    (reEvaluateTenantMatches tenant s).1.rejectedMatches = s.rejectedMatches := by
  simp only [reEvaluateTenantMatches]
  split <;> exact ⟨rfl, rfl, rfl⟩

/-- The auto-match run preserves the exclusivity invariant. -/
theorem exclusive_matchPOST {s : DataState} (h : ExclusiveLinks s.tenantTransactions) :
    ExclusiveLinks (matchPOST s).1.tenantTransactions := by
  rw [matchPOST_links]
  exact autoMatch_foldl_exclusive _ _ _ _ h

/-- The tenants POST handler preserves the exclusivity invariant. -/
theorem exclusive_tenantsPOST (tenant : Tenant) (freshId : String) {s : DataState}
    (h : ExclusiveLinks s.tenantTransactions) :
    ExclusiveLinks (tenantsPOST tenant freshId s).1.tenantTransactions := by
  simp only [tenantsPOST]
  split
  · rw [reEval_links, (saveTenant_frame _ s).1]
    exact exclusiveLinks_filter _ h
  · show ExclusiveLinks (saveTenant _ s).tenantTransactions
    rw [(saveTenant_frame _ s).1]
    exact h

/-- C2 invariant core: every reachable store satisfies link exclusivity. -/
theorem reachable_exclusive {s : DataState} (h : Reachable s) :
    ExclusiveLinks s.tenantTransactions := by
  induction h with
  | init => exact List.Pairwise.nil
  | autoMatch _ ih => exact exclusive_matchPOST ih
  | assign tenantId transactionId _ ih =>
      exact exclusiveLinks_addLinks tenantId transactionId true ih
  | unassign transactionId _ ih =>
      rw [unassign_links]
      exact exclusiveLinks_filter _ ih
  | saveTen tenant freshId _ ih => exact exclusive_tenantsPOST tenant freshId ih
  | reEval tenant _ ih =>
      rw [reEval_links]
      exact exclusiveLinks_filter _ ih
  | delTenant id _ ih => exact exclusiveLinks_filter _ ih
  | delAccount id _ ih => exact exclusiveLinks_filter _ ih
  | delCsvUpload transactionIds _ ih => exact exclusiveLinks_filter _ ih
  | ingest transactions _ ih => exact ih

/-- C2: in every state reachable through auto-match runs, manual assigns,
unassigns, tenant edits with re-evaluation, and the cascade deletions, at most
one Assignment references any given transaction id. -/
theorem exclusivity_invariant {s : DataState} (h : Reachable s) :
    ∀ txId : String,
      (s.tenantTransactions.filter (fun tt => tt.transactionId == txId)).length ≤ 1 :=
  fun txId => exclusiveLinks_count (reachable_exclusive h) txId

/-- Witness for C2 at a concrete reachable state. -/
theorem exclusivity_invariant_witness :
    ((tenantTransactionsPOST "A" "t1" initialState).tenantTransactions.filter
      (fun tt => tt.transactionId == "t1")).length ≤ 1 :=
  exclusivity_invariant (Reachable.assign "A" "t1" Reachable.init) "t1"

/-- C3: with no intervening state change, a second auto-match run matches
nothing. -/
theorem autoMatch_idempotent (s : DataState) :
    (matchPOST (matchPOST s).1).2 = 0 := by
  have hpre : ∀ d ∈ s.transactions.filter (fun t => decide (t.amount < 0)),
      ((matchPOST s).1.tenantTransactions.any
        (fun tt => tt.transactionId == d.transactionId)) = false →
      firstMatchingTenant s.tenants s.rejectedMatches d = none := by
    intro d hd hany
    exact autoMatch_foldl_unassigned_none s.tenants s.rejectedMatches
      (s.transactions.filter (fun t => decide (t.amount < 0)))
      { links := s.tenantTransactions
        assignedIds := s.tenantTransactions.map (fun tt => tt.transactionId)
        matchedCount := 0 } (syncAcc_init _) d hd hany
  have hfix := autoMatch_foldl_fix s.tenants s.rejectedMatches
    (s.transactions.filter (fun t => decide (t.amount < 0)))
    { links := (matchPOST s).1.tenantTransactions
      assignedIds := (matchPOST s).1.tenantTransactions.map (fun tt => tt.transactionId)
      matchedCount := 0 } (syncAcc_init _) hpre
  exact congrArg MatchAcc.matchedCount hfix

/-- C9: an auto-match run only appends automatic links: every prior link is
still present and unchanged, every new link has isManual false, and the
tenants, transactions and rejected matches stores are untouched. -/
theorem autoMatch_additive (s : DataState) :
    (∃ newLinks, (matchPOST s).1.tenantTransactions = s.tenantTransactions ++ newLinks ∧
      (∀ l ∈ newLinks, l.manualOverride = false) ∧
      (∀ l ∈ s.tenantTransactions, l ∈ (matchPOST s).1.tenantTransactions)) ∧
    (matchPOST s).1.tenants = s.tenants ∧
    (matchPOST s).1.transactions = s.transactions ∧
    (matchPOST s).1.rejectedMatches = s.rejectedMatches := by
  refine ⟨?_, rfl, rfl, rfl⟩
  obtain ⟨extra, heq, hprop⟩ := autoMatch_foldl_links_append s.tenants s.rejectedMatches
    (s.transactions.filter (fun t => decide (t.amount < 0)))
    { links := s.tenantTransactions
      assignedIds := s.tenantTransactions.map (fun tt => tt.transactionId)
      matchedCount := 0 }
  rw [matchPOST_links]
  refine ⟨extra, heq, fun l hl => (hprop l hl).1, ?_⟩
  intro l hl
  rw [heq]
  exact List.mem_append.mpr (Or.inl hl)

/-- addRejectedMatch records the pair. -/
theorem addRejectedMatch_rejects (a b : String) (s : DataState) :
    isMatchRejected a b (addRejectedMatch a b s) = true := by
  unfold isMatchRejected isMatchRejectedIn addRejectedMatch
  split
  · next rm hfind =>
      have hmem := List.mem_of_find?_eq_some hfind
      have hp := List.find?_some hfind
      exact List.any_eq_true.mpr ⟨rm, hmem, hp⟩
  · exact List.any_eq_true.mpr
      ⟨{ tenantId := a, transactionId := b }, List.mem_append.mpr (Or.inr (by simp)),
        by simp⟩

/-- addRejectedMatch never forgets a recorded pair. -/
theorem addRejectedMatch_mono (a b c d : String) (s : DataState)
    (h : isMatchRejected a b s = true) :
    isMatchRejected a b (addRejectedMatch c d s) = true := by
  obtain ⟨rm, hrm, hp⟩ := List.any_eq_true.mp h
  unfold isMatchRejected isMatchRejectedIn addRejectedMatch
  split
  · exact List.any_eq_true.mpr ⟨rm, hrm, hp⟩
  · exact List.any_eq_true.mpr ⟨rm, List.mem_append.mpr (Or.inl hrm), hp⟩

/-- removeRejectedMatch on a different pair keeps the recorded pair. -/
theorem removeRejectedMatch_other (a b c d : String) (s : DataState)
    (hne : (a, b) ≠ (c, d)) (h : isMatchRejected a b s = true) :
    isMatchRejected a b (removeRejectedMatch c d s) = true := by
  obtain ⟨rm, hrm, hp⟩ := List.any_eq_true.mp h
  have hab : rm.tenantId = a ∧ rm.transactionId = b := by simpa using hp
  refine List.any_eq_true.mpr ⟨rm, List.mem_filter.mpr ⟨hrm, ?_⟩, hp⟩
  have : ¬(rm.tenantId = c ∧ rm.transactionId = d) := by
    intro hcd
    exact hne (by rw [← hab.1, ← hab.2, hcd.1, hcd.2])
  rcases not_and_or.mp this with hnc | hnd
  · simp [beq_eq_false_iff_ne.mpr hnc]
  · simp [beq_eq_false_iff_ne.mpr hnd]

/-- Unassigning any transaction keeps every recorded pair. -/
theorem unassign_rejected_mono (a b c : String) (s : DataState)
    (h : isMatchRejected a b s = true) :
    isMatchRejected a b (tenantTransactionsDELETE c s) = true := by
  unfold tenantTransactionsDELETE
  split
  · next assignment _ =>
      show isMatchRejected a b
        (removeTenantTransaction c (addRejectedMatch assignment.tenantId c s)) = true
      exact addRejectedMatch_mono a b assignment.tenantId c s h
  · exact h

/-- The tenants POST handler never touches the rejected-matches store. -/
theorem tenantsPOST_rejected (tenant : Tenant) (freshId : String) (s : DataState) :
    (tenantsPOST tenant freshId s).1.rejectedMatches = s.rejectedMatches := by
  simp only [tenantsPOST]
  split
  · rw [(reEval_frame _ _).2.2, (saveTenant_frame _ _).2.2]
  · exact (saveTenant_frame _ _).2.2

/-- Every link surviving the tenants POST handler was already in the store. -/
theorem tenantsPOST_links_subset (tenant : Tenant) (freshId : String) (s : DataState) :
    ∀ l ∈ (tenantsPOST tenant freshId s).1.tenantTransactions,
      l ∈ s.tenantTransactions := by
  simp only [tenantsPOST]
  split
  · intro l hl
    rw [reEval_links] at hl
    have := (List.mem_filter.mp hl).1
    rwa [(saveTenant_frame _ _).1] at this
  · intro l hl
    show l ∈ s.tenantTransactions
    rwa [(saveTenant_frame _ _).1] at hl

/-- While the pair is rejected, an auto-match run creates no link for it. -/
theorem matchPOST_no_new_pair (T tx : String) (s : DataState)
    (hrej : isMatchRejected T tx s = true)
    (hnl : ∀ l ∈ s.tenantTransactions, ¬(l.tenantId = T ∧ l.transactionId = tx)) :
    ∀ l ∈ (matchPOST s).1.tenantTransactions,
      ¬(l.tenantId = T ∧ l.transactionId = tx) := by
  intro l hl hP
  rw [matchPOST_links] at hl
  obtain ⟨extra, heq, hprop⟩ := autoMatch_foldl_links_append s.tenants s.rejectedMatches
    (s.transactions.filter (fun t => decide (t.amount < 0)))
    { links := s.tenantTransactions
      assignedIds := s.tenantTransactions.map (fun tt => tt.transactionId)
      matchedCount := 0 }
  rw [heq] at hl
  rcases List.mem_append.mp hl with hold | hnew
  · exact hnl l hold hP
  · obtain ⟨_, d, _, t, hft, hlt, hltx⟩ := hprop l hnew
    have hpred := List.find?_some hft
    have hnotrej : isMatchRejectedIn s.rejectedMatches t.id d.transactionId = false := by
      have hsplit : (!isMatchRejectedIn s.rejectedMatches t.id d.transactionId) = true
          ∧ matchesTenant t d = true := by simpa using hpred
      simpa using hsplit.1
    rw [hlt] at hP
    rw [hltx] at hP
    rw [hP.1, hP.2] at hnotrej
    unfold isMatchRejected at hrej
    rw [hrej] at hnotrej
    exact Bool.true_eq_false.mp hnotrej

/-- One command other than assigning the pair itself keeps the pair rejected
and keeps the store free of a link for it. -/
theorem noPair_step (T tx : String) (op : UserOp) (hop : op ≠ UserOp.assign T tx)
    (s : DataState) (hrej : isMatchRejected T tx s = true)
    (hnl : ∀ l ∈ s.tenantTransactions, ¬(l.tenantId = T ∧ l.transactionId = tx)) :
    isMatchRejected T tx (applyOp op s) = true ∧
    ∀ l ∈ (applyOp op s).tenantTransactions,
      ¬(l.tenantId = T ∧ l.transactionId = tx) := by
  cases op with
  | autoMatch =>
      exact ⟨hrej, matchPOST_no_new_pair T tx s hrej hnl⟩
  | assign a b =>
      have hpairne : (T, tx) ≠ (a, b) := by
        intro hpair
        exact hop (by rw [Prod.mk.injEq] at hpair; rw [hpair.1, hpair.2])
      constructor
      · show isMatchRejected T tx
          (addTenantTransaction a b true (removeRejectedMatch a b s)) = true
        exact removeRejectedMatch_other T tx a b s hpairne hrej
      · intro l hl hP
        have hl2 : l ∈ addTenantTransactionLinks a b true s.tenantTransactions := hl
        rcases addLinks_dichotomy a b true s.tenantTransactions with ha | ⟨_, ha⟩
        · rw [ha] at hl2
          exact hnl l hl2 hP
        · rw [ha] at hl2
          rcases List.mem_append.mp hl2 with hold | hnew
          · exact hnl l hold hP
          · rw [List.mem_singleton] at hnew
            rw [hnew] at hP
            exact hpairne (by rw [← hP.1, ← hP.2])
  | unassign b =>
      refine ⟨unassign_rejected_mono T tx b s hrej, ?_⟩
      intro l hl hP
      have hl1 : l ∈ (tenantTransactionsDELETE b s).tenantTransactions := hl
      rw [unassign_links] at hl1
      exact hnl l (List.mem_filter.mp hl1).1 hP
  | editTenant t f =>
      constructor
      · show isMatchRejected T tx (tenantsPOST t f s).1 = true
        unfold isMatchRejected
        rw [tenantsPOST_rejected]
        exact hrej
      · intro l hl hP
        exact hnl l (tenantsPOST_links_subset t f s l hl) hP

/-- The invariant of noPair_step survives any command sequence avoiding the
manual assign of the pair. -/
theorem noPair_ops (T tx : String) (ops : List UserOp)
    (hops : ∀ op ∈ ops, op ≠ UserOp.assign T tx) :
    ∀ s : DataState, isMatchRejected T tx s = true →
      (∀ l ∈ s.tenantTransactions, ¬(l.tenantId = T ∧ l.transactionId = tx)) →
      isMatchRejected T tx (applyOps ops s) = true ∧
      ∀ l ∈ (applyOps ops s).tenantTransactions,
        ¬(l.tenantId = T ∧ l.transactionId = tx) := by
  induction ops with
  | nil => exact fun s h1 h2 => ⟨h1, h2⟩
  | cons op rest ih =>
      intro s h1 h2
      have hstep := noPair_step T tx op (hops op (List.mem_cons_self _ _)) s h1 h2
      exact ih (fun o ho => hops o (List.mem_cons_of_mem _ ho)) (applyOp op s)
        hstep.1 hstep.2

/-- Unassigning a transaction linked to its tenant records the rejection and
clears every link of the transaction. -/
theorem unassign_establishes (T tx : String) (s : DataState) (l : TenantTransaction)
    (hex : ExclusiveLinks s.tenantTransactions)
    (hmem : l ∈ s.tenantTransactions) (hT : l.tenantId = T) (htx : l.transactionId = tx) :
    isMatchRejected T tx (tenantTransactionsDELETE tx s) = true ∧
    ∀ l2 ∈ (tenantTransactionsDELETE tx s).tenantTransactions,
      ¬(l2.tenantId = T ∧ l2.transactionId = tx) := by
  constructor
  · unfold tenantTransactionsDELETE
    split
    · next assignment hfind =>
        have hamem := List.mem_of_find?_eq_some hfind
        have hatx : assignment.transactionId = tx := by
          have := List.find?_some hfind
          simpa using this
        have : assignment = l :=
          exclusiveLinks_unique hex hamem hmem (by rw [hatx, htx])
        show isMatchRejected T tx
          (removeTenantTransaction tx (addRejectedMatch assignment.tenantId tx s)) = true
        rw [this, hT]
        exact addRejectedMatch_rejects T tx s
    · next hfind =>
        exfalso
        have := List.find?_eq_none.mp hfind l hmem
        simp [htx] at this
  · intro l2 hl2 hP
    rw [unassign_links] at hl2
    have := (List.mem_filter.mp hl2).2
    rw [hP.2] at this
    simp at this

/-- A manual assign of the pair clears its rejection. -/
theorem assign_clears (T tx : String) (s : DataState) :
    isMatchRejected T tx (tenantTransactionsPOST T tx s) = false := by
  show isMatchRejected T tx (addTenantTransaction T tx true (removeRejectedMatch T tx s))
    = false
  unfold isMatchRejected isMatchRejectedIn
  refine List.any_eq_false.mpr ?_
  intro rm hrm
  have hk := (List.mem_filter.mp hrm).2
  intro hp
  rw [hp] at hk
  simp at hk

/-- C4: after unassigning a transaction linked to tenant T, no sequence of
auto-match runs, other manual assigns, unassigns and tenant edits ever holds a
link between T and the transaction again; the pair stays rejected until a
manual assign of exactly that pair, which clears the rejection. -/
theorem rejection_suppression (s : DataState) (T tx : String) (l : TenantTransaction)
    (ops : List UserOp)
    (hex : ExclusiveLinks s.tenantTransactions)
    (hmem : l ∈ s.tenantTransactions) (hT : l.tenantId = T) (htx : l.transactionId = tx)
    (hops : ∀ op ∈ ops, op ≠ UserOp.assign T tx) :
    (isMatchRejected T tx (applyOps ops (tenantTransactionsDELETE tx s)) = true ∧
      ∀ l2 ∈ (applyOps ops (tenantTransactionsDELETE tx s)).tenantTransactions,
        ¬(l2.tenantId = T ∧ l2.transactionId = tx)) ∧
    isMatchRejected T tx
      (tenantTransactionsPOST T tx (applyOps ops (tenantTransactionsDELETE tx s)))
      = false := by
  have hbase := unassign_establishes T tx s l hex hmem hT htx
  exact ⟨noPair_ops T tx ops hops _ hbase.1 hbase.2, assign_clears T tx _⟩

/-- Witness for C4 on the end-to-end scenario store: after unassign of t1 from
ten1, one auto-match run re-creates nothing even though t1 still satisfies the
rule, and a manual assign clears the rejection. -/
theorem rejection_suppression_witness :
    ((isMatchRejected "ten1" "t1"
        (applyOps [UserOp.autoMatch] (tenantTransactionsDELETE "t1" suppressionState))
        = true ∧
      ∀ l2 ∈ (applyOps [UserOp.autoMatch]
          (tenantTransactionsDELETE "t1" suppressionState)).tenantTransactions,
        ¬(l2.tenantId = "ten1" ∧ l2.transactionId = "t1")) ∧
    isMatchRejected "ten1" "t1"
      (tenantTransactionsPOST "ten1" "t1"
        (applyOps [UserOp.autoMatch] (tenantTransactionsDELETE "t1" suppressionState)))
      = false) ∧
    matchesTenant ten1 zelleTx = true :=
  ⟨rejection_suppression suppressionState "ten1" "t1"
    { id := "ten1-t1", tenantId := "ten1", transactionId := "t1", manualOverride := false }
    [UserOp.autoMatch] (List.pairwise_singleton _ _) (by decide) rfl rfl (by decide),
    by decide⟩

/-- An automatic link of the tenant whose transaction fails the new rule is
slated for removal. -/
theorem mem_toRemove_of_auto (tenant : Tenant) (s : DataState)
    (tt : TenantTransaction) (tr : Transaction)
    (hmem : tt ∈ s.tenantTransactions) (htid : tt.tenantId = tenant.id)
    (hman : tt.manualOverride = false)
    (hfind : s.transactions.find? (fun t => t.transactionId == tt.transactionId) = some tr)
    (hmatch : matchesTenant tenant tr = false) :
    tt.transactionId ∈ transactionsToRemove tenant s := by
  unfold transactionsToRemove
  refine List.mem_filterMap.mpr ⟨tt, List.mem_filter.mpr ⟨hmem, by simp [htid, hman]⟩, ?_⟩
  show (match s.transactions.find? (fun t => t.transactionId == tt.transactionId) with
    | none => some tt.transactionId
    | some transaction =>
        if matchesTenant tenant transaction then none else some tt.transactionId)
    = some tt.transactionId
  rw [hfind]
  show (if matchesTenant tenant tr = true then none else some tt.transactionId)
    = some tt.transactionId
  rw [if_neg (boolNotTrue hmatch)]

/-- An automatic link of the tenant whose transaction is missing is slated for
removal. -/
theorem mem_toRemove_of_missing (tenant : Tenant) (s : DataState)
    (tt : TenantTransaction)
    (hmem : tt ∈ s.tenantTransactions) (htid : tt.tenantId = tenant.id)
    (hman : tt.manualOverride = false)
    (hfind : s.transactions.find? (fun t => t.transactionId == tt.transactionId) = none) :
    tt.transactionId ∈ transactionsToRemove tenant s := by
  unfold transactionsToRemove
  refine List.mem_filterMap.mpr ⟨tt, List.mem_filter.mpr ⟨hmem, by simp [htid, hman]⟩, ?_⟩
  show (match s.transactions.find? (fun t => t.transactionId == tt.transactionId) with
    | none => some tt.transactionId
    | some transaction =>
        if matchesTenant tenant transaction then none else some tt.transactionId)
    = some tt.transactionId
  rw [hfind]

/-- Every id slated for removal is the transaction id of an automatic link of
the tenant. -/
theorem of_mem_toRemove (tenant : Tenant) (s : DataState) (v : String)
    (hv : v ∈ transactionsToRemove tenant s) :
    ∃ tt ∈ s.tenantTransactions, tt.tenantId = tenant.id ∧ tt.manualOverride = false ∧
      tt.transactionId = v := by
  unfold transactionsToRemove at hv
  obtain ⟨tt, htt, hf⟩ := List.mem_filterMap.mp hv
  have hmemfil := List.mem_filter.mp htt
  have hcond : tt.tenantId = tenant.id ∧ tt.manualOverride = false := by
    simpa using hmemfil.2
  refine ⟨tt, hmemfil.1, hcond.1, hcond.2, ?_⟩
  change (match s.transactions.find? (fun t => t.transactionId == tt.transactionId) with
    | none => some tt.transactionId
    | some transaction =>
        if matchesTenant tenant transaction then none else some tt.transactionId)
    = some v at hf
  cases hfind : s.transactions.find? (fun t => t.transactionId == tt.transactionId) with
  | none =>
      rw [hfind] at hf
      simpa using hf
  | some tr =>
      rw [hfind] at hf
      change (if matchesTenant tenant tr = true then none else some tt.transactionId)
        = some v at hf
      rcases Bool.eq_false_or_eq_true (matchesTenant tenant tr) with hm | hm
      · rw [if_pos hm] at hf
        cases hf
      · rw [if_neg (boolNotTrue hm)] at hf
        simpa using hf

/-- A link whose transaction id is slated for removal does not survive
re-evaluation. -/
theorem reEval_removes (tenant : Tenant) (s : DataState) (l : TenantTransaction)
    (hv : l.transactionId ∈ transactionsToRemove tenant s) :
    l ∉ (reEvaluateTenantMatches tenant s).1.tenantTransactions := by
  intro hmem
  rw [reEval_links] at hmem
  have hneg := (List.mem_filter.mp hmem).2
  have hc : (transactionsToRemove tenant s).contains l.transactionId = true :=
    List.elem_iff.mpr hv
  rw [hc] at hneg
  simp at hneg

/-- A link whose transaction id is not slated for removal survives
re-evaluation. -/
theorem reEval_keeps (tenant : Tenant) (s : DataState) (l : TenantTransaction)
    (hmem : l ∈ s.tenantTransactions)
    (hv : l.transactionId ∉ transactionsToRemove tenant s) :
    l ∈ (reEvaluateTenantMatches tenant s).1.tenantTransactions := by
  rw [reEval_links]
  refine List.mem_filter.mpr ⟨hmem, ?_⟩
  have hfalse : (transactionsToRemove tenant s).contains l.transactionId = false := by
    rcases Bool.eq_false_or_eq_true
      ((transactionsToRemove tenant s).contains l.transactionId) with hc | hc
    · exact absurd (List.elem_iff.mp hc) hv
    · exact hc
  rw [hfalse]
  rfl

/-- On an edit, the tenants POST handler saves and then re-evaluates. -/
theorem tenantsPOST_edit (tenant : Tenant) (freshId : String) (s : DataState)
    (hid : tenant.id ≠ "")
    (hexists : s.tenants.any (fun t => t.id == tenant.id) = true) :
    tenantsPOST tenant freshId s = reEvaluateTenantMatches tenant (saveTenant tenant s) := by
  simp only [tenantsPOST]
  rw [if_neg hid]
  rw [if_pos (by simp [hexists, bne_iff_ne, hid])]

/-- C5: editing a tenant retracts an automatic link whose transaction fails
the new rule and counts it in removedCount; a manual link in the identical
state always survives re-evaluation (under the store exclusivity invariant the
system maintains). -/
theorem reevaluation_correctness (tOld tNew : Tenant) (freshId : String) (s : DataState)
    (link : TenantTransaction) (tx : Transaction)
    (hidne : tNew.id ≠ "")
    (hold : tOld ∈ s.tenants ∧ tOld.id = tNew.id ∧ matchesTenant tOld tx = true)
    (hlink : link ∈ s.tenantTransactions)
    (hltid : link.tenantId = tNew.id)
    (hfind : s.transactions.find? (fun t => t.transactionId == link.transactionId)
      = some tx)
    (hnew : matchesTenant tNew tx = false) :
    (link.manualOverride = false →
       link ∉ (tenantsPOST tNew freshId s).1.tenantTransactions ∧
       1 ≤ (tenantsPOST tNew freshId s).2) ∧
    (link.manualOverride = true → ExclusiveLinks s.tenantTransactions →
       link ∈ (tenantsPOST tNew freshId s).1.tenantTransactions) := by
  have hexists : s.tenants.any (fun t => t.id == tNew.id) = true :=
    List.any_eq_true.mpr ⟨tOld, hold.1, by simp [hold.2.1]⟩
  have hedit := tenantsPOST_edit tNew freshId s hidne hexists
  have hsave := saveTenant_frame tNew s
  have hlink1 : link ∈ (saveTenant tNew s).tenantTransactions := by
    rw [hsave.1]; exact hlink
  have hfind1 : (saveTenant tNew s).transactions.find?
      (fun t => t.transactionId == link.transactionId) = some tx := by
    rw [hsave.2.1]; exact hfind
  constructor
  · intro hman
    have hrem : link.transactionId ∈ transactionsToRemove tNew (saveTenant tNew s) :=
      mem_toRemove_of_auto tNew (saveTenant tNew s) link tx hlink1 hltid hman hfind1 hnew
    constructor
    · rw [hedit]
      exact reEval_removes tNew (saveTenant tNew s) link hrem
    · rw [hedit, reEval_count]
      exact List.length_pos.mpr (List.ne_nil_of_mem hrem)
  · intro hman hex
    have hex1 : ExclusiveLinks (saveTenant tNew s).tenantTransactions := by
      rw [hsave.1]; exact hex
    rw [hedit]
    refine reEval_keeps tNew (saveTenant tNew s) link hlink1 ?_
    intro hvmem
    obtain ⟨tt, httmem, _, httman, htteq⟩ :=
      of_mem_toRemove tNew (saveTenant tNew s) link.transactionId hvmem
    have : tt = link := exclusiveLinks_unique hex1 httmem hlink1 htteq
    rw [this, hman] at httman
    cases httman

/-- Witness for C5: the SMITH link of ten1 is retracted and counted when the
rule becomes JONES; the same link flagged manual survives the same edit. -/
theorem reevaluation_correctness_witness :
    (({ id := "ten1-t1", tenantId := "ten1", transactionId := "t1",
        manualOverride := false } : TenantTransaction)
      ∉ (tenantsPOST ten1Edited "f" suppressionState).1.tenantTransactions ∧
     1 ≤ (tenantsPOST ten1Edited "f" suppressionState).2) ∧
    ({ id := "ten1-t1", tenantId := "ten1", transactionId := "t1",
        manualOverride := true } : TenantTransaction)
      ∈ (tenantsPOST ten1Edited "f" manualLinkState).1.tenantTransactions :=
  ⟨(reevaluation_correctness ten1 ten1Edited "f" suppressionState
      { id := "ten1-t1", tenantId := "ten1", transactionId := "t1",
        manualOverride := false } zelleTx
      (by decide) ⟨by decide, rfl, by decide⟩ (by decide) rfl (by decide)
      (by decide)).1 rfl,
   (reevaluation_correctness ten1 ten1Edited "f" manualLinkState
      { id := "ten1-t1", tenantId := "ten1", transactionId := "t1",
        manualOverride := true } zelleTx
      (by decide) ⟨by decide, rfl, by decide⟩ (by decide) rfl (by decide)
      (by decide)).2 rfl (List.pairwise_singleton _ _)⟩

/-- C10: re-evaluation deletes every link sharing a slated transaction id, no
matter its tenant or manual flag; only under the exclusivity invariant is the
deletion confined to the automatic links of the edited tenant. -/
theorem reevaluate_txid_global_effect (tenant : Tenant) (s : DataState) :
    (∀ l ∈ s.tenantTransactions, l.transactionId ∈ transactionsToRemove tenant s →
       l ∉ (reEvaluateTenantMatches tenant s).1.tenantTransactions) ∧
    (ExclusiveLinks s.tenantTransactions →
       ∀ l ∈ s.tenantTransactions,
         l ∉ (reEvaluateTenantMatches tenant s).1.tenantTransactions →
         l.tenantId = tenant.id ∧ l.manualOverride = false) := by
  constructor
  · intro l _ hv
    exact reEval_removes tenant s l hv
  · intro hex l hmem hnomem
    have hvmem : l.transactionId ∈ transactionsToRemove tenant s := by
      by_contra hno
      exact hnomem (reEval_keeps tenant s l hmem hno)
    obtain ⟨tt, httmem, httid, httman, htteq⟩ :=
      of_mem_toRemove tenant s l.transactionId hvmem
    have : tt = l := exclusiveLinks_unique hex httmem hmem htteq
    rw [this] at httid httman
    exact ⟨httid, httman⟩

/-- Witness for C10: the manual link of the foreign tenant Z, sharing the
transaction id of the retracted automatic link of tenant A, is deleted too. -/
theorem reevaluate_txid_global_effect_witness :
    ({ id := "Z-x1", tenantId := "Z", transactionId := "x1",
        manualOverride := true } : TenantTransaction)
      ∉ (reEvaluateTenantMatches tenantA sharedTxIdState).1.tenantTransactions :=
  (reevaluate_txid_global_effect tenantA sharedTxIdState).1
    { id := "Z-x1", tenantId := "Z", transactionId := "x1", manualOverride := true }
    (by decide)
    (mem_toRemove_of_auto tenantA sharedTxIdState
      { id := "A-x1", tenantId := "A", transactionId := "x1", manualOverride := false }
      otherTx (by decide) rfl rfl (by decide) (by decide))

/-- In searchTerms mode with the amount inside the window, the evaluator is
exactly the term scan. -/
theorem searchTerms_range_eval (tenant : Tenant) (tx : Transaction)
    (hmode : tenant.matchMode = "searchTerms")
    (hin : tenant.expectedRent - tenant.tolerance ≤ |tx.amount| ∧
      |tx.amount| ≤ tenant.expectedRent + tenant.tolerance) :
    matchesTenant tenant tx =
      tenant.searchTerms.any
        (fun term => strTrim term != "" && strIncludes (descriptionOf tx) (strToUpper term)) := by
  simp only [matchesTenant]
  rw [if_neg (by rw [hmode]; decide)]
  rw [if_pos hin]

/-- In searchTerms mode with the amount outside the window, the evaluator
rejects. -/
theorem searchTerms_range_reject (tenant : Tenant) (tx : Transaction)
    (hmode : tenant.matchMode = "searchTerms")
    (hout : ¬(tenant.expectedRent - tenant.tolerance ≤ |tx.amount| ∧
      |tx.amount| ≤ tenant.expectedRent + tenant.tolerance)) :
    matchesTenant tenant tx = false := by
  simp only [matchesTenant]
  rw [if_neg (by rw [hmode]; decide)]
  rw [if_neg hout]

/-- C1 counterexample: with t1 already assigned to tenant B, a manual assign
of (A, t1) does not move the transaction — no Assignment to A is created and
the store still holds only the link to B. -/
theorem assign_reassignment_counterexample :
    (¬ ∃ l ∈ (tenantTransactionsPOST "A" "t1" reassignState).tenantTransactions,
        l.tenantId = "A" ∧ l.transactionId = "t1") ∧
    (tenantTransactionsPOST "A" "t1" reassignState).tenantTransactions =
      [{ id := "B-t1", tenantId := "B", transactionId := "t1",
         manualOverride := false }] := by
  decide

/-- C1 (amended): the manual assign removes the RejectedMatch for the exact
pair and then creates the manual Assignment only when the transaction has no
Assignment at all; when any Assignment for the transaction id exists — even to
another tenant — the link store is left unchanged, so reassignment does not
move the transaction. -/
theorem assign_spec_amended (tenantId transactionId : String) (s : DataState) :
    isMatchRejected tenantId transactionId
      (tenantTransactionsPOST tenantId transactionId s) = false ∧
    ((∀ l ∈ s.tenantTransactions, l.transactionId ≠ transactionId) →
      (tenantTransactionsPOST tenantId transactionId s).tenantTransactions =
        s.tenantTransactions ++
          [{ id := tenantId ++ "-" ++ transactionId, tenantId := tenantId,
             transactionId := transactionId, manualOverride := true }]) ∧
    ((∃ l ∈ s.tenantTransactions, l.transactionId = transactionId) →
      (tenantTransactionsPOST tenantId transactionId s).tenantTransactions =
        s.tenantTransactions) := by
  refine ⟨assign_clears tenantId transactionId s, ?_, ?_⟩
  · intro hnone
    have hany : s.tenantTransactions.any
        (fun tt => tt.transactionId == transactionId) = false := by
      refine List.any_eq_false.mpr ?_
      intro tt htt
      simpa using hnone tt htt
    exact addLinks_unassigned tenantId transactionId true s.tenantTransactions hany
  · intro hsome
    obtain ⟨l, hl, hleq⟩ := hsome
    have hany : s.tenantTransactions.any
        (fun tt => tt.transactionId == transactionId) = true :=
      List.any_eq_true.mpr ⟨l, hl, by simp [hleq]⟩
    exact addLinks_assigned tenantId transactionId true s.tenantTransactions hany

/-- Witness for C1 (amended): on the reassignState the already-assigned branch
fires. -/
theorem assign_spec_amended_witness :
    (tenantTransactionsPOST "A" "t1" reassignState).tenantTransactions =
      reassignState.tenantTransactions :=
  (assign_spec_amended "A" "t1" reassignState).2.2 (by decide)

/-- C7 counterexample: the whitespace-only term of wsTenant is non-empty and
is a substring of the uppercased description, and the deposit amount is inside
the window, yet the evaluator returns false — the code skips terms that trim
to the empty string. -/
theorem whitespace_term_counterexample :
    matchesTenant wsTenant wsTx = false ∧
    (∃ term ∈ wsTenant.searchTerms, term ≠ "" ∧
      strIncludes (descriptionOf wsTx) (strToUpper term) = true) ∧
    wsTenant.expectedRent - wsTenant.tolerance ≤ |wsTx.amount| ∧
    |wsTx.amount| ≤ wsTenant.expectedRent + wsTenant.tolerance := by
  decide

/-- C7 (amended): for a searchTerms tenant with the absolute amount inside the
inclusive window, the evaluator returns true exactly when some search term
that is non-empty after trimming is, case-insensitively, a substring of the
uppercased description-plus-merchant text; whitespace-only terms are ignored. -/
theorem evaluator_searchTerms_iff (tenant : Tenant) (tx : Transaction)
    (hmode : tenant.matchMode = "searchTerms")
    (hlo : tenant.expectedRent - tenant.tolerance ≤ |tx.amount|)
    (hhi : |tx.amount| ≤ tenant.expectedRent + tenant.tolerance) :
    matchesTenant tenant tx = true ↔
      ∃ term ∈ tenant.searchTerms, strTrim term ≠ "" ∧
        strIncludes (descriptionOf tx) (strToUpper term) = true := by
  rw [searchTerms_range_eval tenant tx hmode ⟨hlo, hhi⟩]
  rw [List.any_eq_true]
  constructor
  · rintro ⟨term, hterm, hp⟩
    have hp2 : (strTrim term != "") = true ∧
        strIncludes (descriptionOf tx) (strToUpper term) = true := by
      simpa using hp
    exact ⟨term, hterm, by simpa using hp2.1, hp2.2⟩
  · rintro ⟨term, hterm, hne, hinc⟩
    refine ⟨term, hterm, ?_⟩
    simp [hinc, bne_iff_ne, hne]

/-- Witness for C7 (amended) on the SMITH scenario. -/
theorem evaluator_searchTerms_iff_witness :
    matchesTenant tenantA smithDeposit = true :=
  (evaluator_searchTerms_iff tenantA smithDeposit rfl (by decide) (by decide)).mpr
    (by decide)

/-- C8: the amount filter of searchTerms mode has inclusive bounds — a strict
outlier never matches, a boundary amount with a matching term does — and on
the concrete 1500-plus-or-minus-50 tenant, 1450 and 1550 match while 1449.99
and 1550.01 do not. -/
theorem amount_tolerance_boundary :
    (∀ (tenant : Tenant) (tx : Transaction), tenant.matchMode = "searchTerms" →
      (|tx.amount| < tenant.expectedRent - tenant.tolerance ∨
        tenant.expectedRent + tenant.tolerance < |tx.amount|) →
      matchesTenant tenant tx = false) ∧
    (∀ (tenant : Tenant) (tx : Transaction), tenant.matchMode = "searchTerms" →
      0 ≤ tenant.tolerance →
      (|tx.amount| = tenant.expectedRent - tenant.tolerance ∨
        |tx.amount| = tenant.expectedRent + tenant.tolerance) →
      (∃ term ∈ tenant.searchTerms, strTrim term ≠ "" ∧
        strIncludes (descriptionOf tx) (strToUpper term) = true) →
      matchesTenant tenant tx = true) ∧
    matchesTenant boundaryTenant tx1450 = true ∧
    matchesTenant boundaryTenant tx1550 = true ∧
    matchesTenant boundaryTenant tx144999 = false ∧
    matchesTenant boundaryTenant tx155001 = false := by
  refine ⟨?_, ?_, by decide, by decide, by decide, by decide⟩
  · intro tenant tx hmode hout
    refine searchTerms_range_reject tenant tx hmode ?_
    rintro ⟨hlo, hhi⟩
    rcases hout with h | h
    · exact absurd hlo (not_le.mpr h)
    · exact absurd hhi (not_le.mpr h)
  · intro tenant tx hmode htol hbound hterm
    have hin : tenant.expectedRent - tenant.tolerance ≤ |tx.amount| ∧
        |tx.amount| ≤ tenant.expectedRent + tenant.tolerance := by
      rcases hbound with h | h
      · exact ⟨le_of_eq h.symm, by rw [h]; linarith⟩
      · exact ⟨by rw [h]; linarith, le_of_eq h⟩
    rw [searchTerms_range_eval tenant tx hmode hin]
    obtain ⟨term, hmem, hne, hinc⟩ := hterm
    refine List.any_eq_true.mpr ⟨term, hmem, ?_⟩
    simp [hinc, bne_iff_ne, hne]

/-- Witness for C8: the inclusive-bound rejection side applied at 1449.99. -/
theorem amount_tolerance_boundary_witness :
    matchesTenant boundaryTenant tx144999 = false :=
  amount_tolerance_boundary.1 boundaryTenant tx144999 rfl (Or.inl (by decide))

/-- find? lands on the head of the second part when the first part fails. -/
theorem find?_append_first {α : Type} (p : α → Bool) (l1 l2 : List α) (a : α)
    (h1 : ∀ x ∈ l1, p x = false) (ha : p a = true) :
    (l1 ++ a :: l2).find? p = some a := by
  induction l1 with
  | nil =>
      show (a :: l2).find? p = some a
      exact List.find?_cons_of_pos _ ha
  | cons x xs ih =>
      show (x :: (xs ++ a :: l2)).find? p = some a
      rw [List.find?_cons_of_neg _ (boolNotTrue (h1 x (List.mem_cons_self _ _)))]
      exact ih (fun y hy => h1 y (List.mem_cons_of_mem _ hy))

/-- C6: when an unassigned deposit satisfies the rules of tenant A and of a
later tenant B (neither rejected) and no earlier tenant matches, the run
assigns the deposit to A with an automatic link, every link of the deposit in
the result belongs to A, and none belongs to B. -/
theorem first_match_wins (s : DataState) (d : Transaction)
    (ts1 ts2 : List Tenant) (tenA tenB : Tenant)
    (hdistinct : List.Pairwise
      (fun a b : Transaction => a.transactionId ≠ b.transactionId) s.transactions)
    (hd : d ∈ s.transactions) (hdep : d.amount < 0)
    (hunassigned : s.tenantTransactions.any
      (fun tt => tt.transactionId == d.transactionId) = false)
    (hsplit : s.tenants = ts1 ++ tenA :: ts2)
    (hfirst : ∀ t ∈ ts1,
      (!isMatchRejectedIn s.rejectedMatches t.id d.transactionId
        && matchesTenant t d) = false)
    (hA : matchesTenant tenA d = true)
    (hAnr : isMatchRejectedIn s.rejectedMatches tenA.id d.transactionId = false)
    (hB : tenB ∈ ts2) (hBm : matchesTenant tenB d = true)
    (hBnr : isMatchRejectedIn s.rejectedMatches tenB.id d.transactionId = false)
    (hABid : tenB.id ≠ tenA.id) :
    (∃ l ∈ (matchPOST s).1.tenantTransactions,
      l.tenantId = tenA.id ∧ l.transactionId = d.transactionId ∧
        l.manualOverride = false) ∧
    (∀ l ∈ (matchPOST s).1.tenantTransactions,
      l.transactionId = d.transactionId → l.tenantId = tenA.id) ∧
    ¬(∃ l ∈ (matchPOST s).1.tenantTransactions,
      l.tenantId = tenB.id ∧ l.transactionId = d.transactionId) := by
  have hfm : firstMatchingTenant s.tenants s.rejectedMatches d = some tenA := by
    unfold firstMatchingTenant
    rw [hsplit]
    refine find?_append_first _ ts1 ts2 tenA hfirst ?_
    show (!isMatchRejectedIn s.rejectedMatches tenA.id d.transactionId
      && matchesTenant tenA d) = true
    rw [hAnr, hA]
    rfl
  have huniq : ∀ l ∈ (matchPOST s).1.tenantTransactions,
      l.transactionId = d.transactionId → l.tenantId = tenA.id := by
    intro l hl hltx
    rw [matchPOST_links] at hl
    obtain ⟨extra, heq, hprop⟩ := autoMatch_foldl_links_append s.tenants s.rejectedMatches
      (s.transactions.filter (fun t => decide (t.amount < 0)))
      { links := s.tenantTransactions
        assignedIds := s.tenantTransactions.map (fun tt => tt.transactionId)
        matchedCount := 0 }
    rw [heq] at hl
    rcases List.mem_append.mp hl with hold | hnew
    · exfalso
      have hnone := List.any_eq_false.mp hunassigned l hold
      rw [hltx] at hnone
      simp at hnone
    · obtain ⟨_, d1, hd1, t, hft, hlt, hltx1⟩ := hprop l hnew
      have hd1mem : d1 ∈ s.transactions := List.mem_of_mem_filter hd1
      have hd1d : d1 = d := by
        by_contra hne
        exact (hdistinct.forall (fun x y hxy => Ne.symm hxy) hd1mem hd hne)
          (by rw [← hltx1, hltx])
      rw [hd1d, hfm] at hft
      have ht : t = tenA := (Option.some.inj hft).symm
      rw [hlt, ht]
  refine ⟨?_, huniq, ?_⟩
  · have hdmem : d ∈ s.transactions.filter (fun t => decide (t.amount < 0)) :=
      List.mem_filter.mpr ⟨hd, decide_eq_true hdep⟩
    obtain ⟨ds1, ds2, hds⟩ := List.append_of_mem hdmem
    have hdpair : List.Pairwise
        (fun a b : Transaction => a.transactionId ≠ b.transactionId)
        (ds1 ++ d :: ds2) := by
      rw [← hds]
      exact hdistinct.sublist (List.filter_sublist _)
    have hds1ne : ∀ x ∈ ds1, x.transactionId ≠ d.transactionId := by
      intro x hx
      exact (List.pairwise_append.mp hdpair).2.2 x hx d (List.mem_cons_self _ _)
    obtain ⟨extra1, heq1, hprop1⟩ := autoMatch_foldl_links_append s.tenants
      s.rejectedMatches ds1
      { links := s.tenantTransactions
        assignedIds := s.tenantTransactions.map (fun tt => tt.transactionId)
        matchedCount := 0 }
    have hany1 : (List.foldl (autoMatchStep s.tenants s.rejectedMatches)
        { links := s.tenantTransactions
          assignedIds := s.tenantTransactions.map (fun tt => tt.transactionId)
          matchedCount := 0 } ds1).links.any
        (fun tt => tt.transactionId == d.transactionId) = false := by
      rw [heq1, List.any_append]
      refine Bool.or_eq_false_iff.mpr ⟨hunassigned, ?_⟩
      refine List.any_eq_false.mpr ?_
      intro l1 hl1 hcon
      obtain ⟨_, d1, hd1, _, _, _, hltx1⟩ := hprop1 l1 hl1
      have hx : l1.transactionId = d.transactionId := by simpa using hcon
      exact hds1ne d1 hd1 (by rw [← hltx1, hx])
    have hsync1 : SyncAcc (List.foldl (autoMatchStep s.tenants s.rejectedMatches)
        { links := s.tenantTransactions
          assignedIds := s.tenantTransactions.map (fun tt => tt.transactionId)
          matchedCount := 0 } ds1) :=
      syncAcc_foldl _ _ _ _ (syncAcc_init _)
    have hg : (List.foldl (autoMatchStep s.tenants s.rejectedMatches)
        { links := s.tenantTransactions
          assignedIds := s.tenantTransactions.map (fun tt => tt.transactionId)
          matchedCount := 0 } ds1).assignedIds.contains d.transactionId = false := by
      rw [hsync1 d.transactionId]
      exact hany1
    have hstep := autoMatchStep_some s.tenants s.rejectedMatches _ d tenA hg hfm
    have hadd := addLinks_unassigned tenA.id d.transactionId false
      (List.foldl (autoMatchStep s.tenants s.rejectedMatches)
        { links := s.tenantTransactions
          assignedIds := s.tenantTransactions.map (fun tt => tt.transactionId)
          matchedCount := 0 } ds1).links hany1
    obtain ⟨extra2, heq2, _⟩ := autoMatch_foldl_links_append s.tenants s.rejectedMatches
      ds2 (autoMatchStep s.tenants s.rejectedMatches
        (List.foldl (autoMatchStep s.tenants s.rejectedMatches)
          { links := s.tenantTransactions
            assignedIds := s.tenantTransactions.map (fun tt => tt.transactionId)
            matchedCount := 0 } ds1) d)
    refine ⟨{ id := tenA.id ++ "-" ++ d.transactionId, tenantId := tenA.id,
              transactionId := d.transactionId, manualOverride := false }, ?_,
            rfl, rfl, rfl⟩
    rw [matchPOST_links, hds, List.foldl_append, List.foldl_cons, heq2]
    refine List.mem_append.mpr (Or.inl ?_)
    rw [hstep]
    show _ ∈ addTenantTransactionLinks tenA.id d.transactionId false _
    rw [hadd]
    exact List.mem_append.mpr (Or.inr (List.mem_singleton.mpr rfl))
  · rintro ⟨l, hl, hlB, hltx⟩
    exact hABid (by rw [← hlB]; exact huniq l hl hltx)

/-- Witness for C6 on the SMITH scenario: tenants A and B share the rule, the
deposit of 1000 goes to A only, and B never receives it. -/
theorem first_match_wins_witness :
    (∃ l ∈ (matchPOST firstMatchState).1.tenantTransactions,
      l.tenantId = tenantA.id ∧ l.transactionId = smithDeposit.transactionId ∧
        l.manualOverride = false) ∧
    (∀ l ∈ (matchPOST firstMatchState).1.tenantTransactions,
      l.transactionId = smithDeposit.transactionId → l.tenantId = tenantA.id) ∧
    ¬(∃ l ∈ (matchPOST firstMatchState).1.tenantTransactions,
      l.tenantId = tenantB.id ∧ l.transactionId = smithDeposit.transactionId) :=
  first_match_wins firstMatchState smithDeposit [] [tenantB] tenantA tenantB
    (List.pairwise_singleton _ _) (by decide) (by decide) (by decide) rfl
    (by intro t ht; cases ht) (by decide) (by decide) (by decide) (by decide)
    (by decide) (by decide)

end PlaidIncome
